import Mathlib

/-!
Shallow embedding of the carousel component (`src/carousel/carousel.go`) of
blackwell-systems/bubbletea-components, and proofs of the specification's
claims about it.

Modelling conventions:
- Go `int` is `Int`; Go integer division `/` truncates toward zero, which is
  `Int.tdiv` here (never `/` on `Int`, which is Euclidean division).
- Styled terminal text is modelled at the cell level: a `Line` is a list of
  cells, each either a printable character (one visible column) or an ANSI
  style escape sequence (zero visible columns). A rendered block is a list of
  lines.
- External capabilities (the caller's `ItemDelegate` and the lipgloss
  box-drawing / styling / horizontal-join primitives) are passed to `view` as
  a `RenderCaps` record, mirroring how the Go code calls out to them.
- A Go run-time panic (out-of-range slice index in `Update`'s select branch)
  is modelled as `Except.error`.
-/

namespace Carousel

/-- Layout constant `minPeekW` (carousel.go line 41): minimum visible columns
for each side peek. -/
def minPeekW : Int := 8

/-- Layout constant `carouselGap` (carousel.go line 42): blank columns between
the peek card and center card. -/
def carouselGap : Int := 2

/-- Layout constant `maxCenterW` (carousel.go line 43): cap on center card
width. -/
def maxCenterW : Int := 44

/-! ## Cell-level model of styled text (for the clipper) -/

/-- One unit of a rendered line: a printable character occupying one visible
column, or an ANSI style escape sequence occupying zero visible columns. -/
inductive Cell where
  | ch (c : Char)
  | esc (s : String)
deriving DecidableEq, Repr

/-- Visible column width of a single cell. -/
def cellWidth : Cell → Nat
  | .ch _ => 1
  | .esc _ => 0

/-- A rendered line of styled text. -/
abbrev Line := List Cell

/-- Modelled from the spec: the external `xansi.StringWidth` capability —
visible column width of a line; style escape sequences contribute zero
width (spec section 4.4). -/
def stringWidth (l : Line) : Nat := (l.map cellWidth).sum

/-- Modelled from the spec: the external `xansi.TruncateLeft(line, k, "")`
capability — removes the leftmost `k` visible columns of a line; style
escape sequences have zero width and are preserved across the cut
(spec section 4.4). -/
def truncateLeft : Line → Nat → Line
  | l, 0 => l
  | [], _ + 1 => []
  | .esc s :: rest, k + 1 => .esc s :: truncateLeft rest (k + 1)
  | .ch _ :: rest, k + 1 => truncateLeft rest k

/-- Modelled from the spec: the external `xansi.Truncate(line, n, "")`
capability — keeps the leftmost `n` visible columns of a line; style escape
sequences are preserved while the budget lasts (spec section 4.4). -/
def truncateVisible : Line → Nat → Line
  | [], _ => []
  | .esc s :: rest, n => .esc s :: truncateVisible rest n
  | .ch _ :: _, 0 => []
  | .ch c :: rest, n + 1 => .ch c :: truncateVisible rest n

/-- `peekRight` (carousel.go lines 413-422): clips a rendered multi-line block
to its rightmost `n` visible columns, line by line. A line whose visible
width is at most `n` is left untouched. -/
def peekRight (block : List Line) (n : Nat) : List Line :=
  block.map fun line =>
    let w := stringWidth line
    if n < w then truncateLeft line (w - n) else line

/-- `peekLeft` (carousel.go lines 403-409): clips a rendered multi-line block
to its leftmost `n` visible columns, line by line. -/
def peekLeft (block : List Line) (n : Nat) : List Line :=
  block.map fun line => truncateVisible line n

/-! ## Layout math (Model.View, carousel.go lines 199-225) -/

/-- `usable := m.width - 6` (carousel.go line 199). -/
def usableW (width : Int) : Int := width - 6

/-- Center card width (carousel.go lines 200-206): raw formula, capped at
`maxCenterW`, then floored at 24. -/
def centerWidth (width : Int) : Int :=
  let c := usableW width - 2 * (minPeekW + carouselGap)
  let c1 := if c > maxCenterW then maxCenterW else c
  if c1 < 24 then 24 else c1

/-- `maxPeek := (centerW + 2) / 2` (carousel.go line 211), Go truncating
division. -/
def maxPeek (centerW : Int) : Int := (centerW + 2).tdiv 2

/-- Pre-clamp peek width `(usable - centerW - 2*carouselGap) / 2`
(carousel.go line 210). Go `/` on int truncates toward zero, hence
`Int.tdiv`. -/
def preClampPeek (width : Int) : Int :=
  (usableW width - centerWidth width - 2 * carouselGap).tdiv 2

/-- Final peek width (carousel.go lines 210-216): the pre-clamp value, capped
at `maxPeek`, then floored at `minPeekW`. -/
def peekWidth (width : Int) : Int :=
  let p := preClampPeek width
  let p1 := if p > maxPeek (centerWidth width) then maxPeek (centerWidth width) else p
  if p1 < minPeekW then minPeekW else p1

/-- Card content height (carousel.go lines 221-225): `(centerW + 2) * 3 / 10`
floored at 8. -/
def cardContentH (width : Int) : Int :=
  let totalCardW := centerWidth width + 2
  let h := (totalCardW * 3).tdiv 10
  if h < 8 then 8 else h

/-- The layout triple computed at the start of `Model.View` (spec's
`computeLayout`). -/
structure Layout where
  centerW : Int
  peekW : Int
  cardH : Int
deriving DecidableEq, Repr

/-- The layout computation at the start of `Model.View`
(carousel.go lines 199-225). -/
def computeLayout (width : Int) : Layout :=
  ⟨centerWidth width, peekWidth width, cardContentH width⟩

/-- The spec's description of the final peek width (spec section 4.1, step 3),
with the integer division amended from floor to Go's truncating division:
clamp the raw quotient first to at most `maxPeek`, then to at least
`minPeekW`. -/
def peekWidthSpec (width : Int) : Int :=
  max minPeekW
    (min ((usableW width - centerWidth width - 2 * carouselGap).tdiv 2)
      (maxPeek (centerWidth width)))

/-! ## Carousel state and transitions -/

/-- The carousel `Model` (carousel.go lines 98-109). The delegate and the
three border colors are external capabilities / opaque configuration and are
passed to `view` separately, so the state record carries the data fields. -/
structure Model (α : Type) where
  items : List α
  title : String
  extraFooter : String
  cursor : Int
  width : Int
  height : Int
deriving DecidableEq, Repr

/-- `ItemSelectedMsg` (carousel.go lines 63-66). -/
structure ItemSelectedMsg (α : Type) where
  index : Int
  item : α
deriving DecidableEq, Repr

/-- Go slice indexing `l[i]` with an `int` index: `some` when in range,
`none` when the access would panic. -/
def listGetInt (l : List α) (i : Int) : Option α :=
  if 0 ≤ i then l[i.toNat]? else none

/-- `Model.Update` (carousel.go lines 150-176). The returned `tea.Cmd` is
either nil (`none`) or a thunk producing an `ItemSelectedMsg` (`some`).
An out-of-range index in the select branch is a Go panic, modelled as
`Except.error`. -/
def update (m : Model α) (key : String) : Except String (Model α × Option (ItemSelectedMsg α)) :=
  let n : Int := m.items.length
  if m.items.length = 0 then .ok (m, none)
  else if key = "left" ∨ key = "h" then
    .ok (if m.cursor > 0 then { m with cursor := m.cursor - 1 } else m, none)
  else if key = "right" ∨ key = "l" then
    .ok (if m.cursor < n - 1 then { m with cursor := m.cursor + 1 } else m, none)
  else if key = "down" ∨ key = "j" ∨ key = "enter" ∨ key = " " then
    match listGetInt m.items m.cursor with
    | some item => .ok (m, some ⟨m.cursor, item⟩)
    | none => .error "index out of range"
  else .ok (m, none)

/-- Folds a sequence of key messages through `update`, keeping the state
component. The `.error` fallback (a panic in Go) never fires for the
move keys the theorems below restrict to. -/
def applyMoves (m : Model α) (ks : List String) : Model α :=
  ks.foldl (fun s k =>
    match update s k with
    | .ok (s2, _) => s2
    | .error _ => s) m

/-- `Model.SetCursor` (carousel.go lines 304-312). -/
def setCursor (m : Model α) (idx : Int) : Model α :=
  let idx1 := if idx < 0 then 0 else idx
  let n : Int := m.items.length
  let idx2 := if 0 < n ∧ n ≤ idx1 then n - 1 else idx1
  { m with cursor := idx2 }

/-- `Model.SetSize` (carousel.go lines 317-320). -/
def setSize (m : Model α) (width height : Int) : Model α :=
  { m with width := width, height := height }

/-- `Model.SetItems` (carousel.go lines 329-337): installs the new slice and
clamps the cursor to the last valid index when it would be out of range. -/
def setItems (m : Model α) (items : List α) : Model α :=
  let m1 := { m with items := items }
  let n : Int := items.length
  if 0 < n ∧ n ≤ m1.cursor then { m1 with cursor := n - 1 } else m1

/-- `Model.MarkedCount` (carousel.go lines 340-348), with the delegate's
`IsMarked` passed as a capability. -/
def markedCount (isMarked : α → Bool) (m : Model α) : Nat :=
  m.items.countP isMarked

/-! ## Rendering (Model.View, carousel.go lines 188-295) -/

/-- Border role of a rendered card: the focused center card, a marked inactive
card, an unmarked inactive card, or the ghost placeholder. -/
inductive CardRole where
  | active
  | marked
  | dflt
  | ghost
deriving DecidableEq, Repr

/-- Which lipgloss text style a piece of header/footer/indicator text gets. -/
inductive StyleTag where
  | header
  | help
  | dim
  | activeDot
  | defaultDot
deriving DecidableEq, Repr

/-- External rendering capabilities used by `view`: the caller's
`ItemDelegate` (`render`, `isMarked`) and the lipgloss primitives (bordered
box of a given width/height, inline text styling, horizontal join of blocks,
footer padding). -/
structure RenderCaps (α : Type) where
  render : α → Int → String
  isMarked : α → Bool
  box : CardRole → Int → Int → String → List Line
  styled : StyleTag → String → String
  joinH : List (List Line) → List Line
  padFooter : String → String

/-- `Model.renderCard` (carousel.go lines 353-380): delegate content at
interior width `cardW - 2`, bordered with the role-appropriate color. -/
def renderCard (caps : RenderCaps α) (item : α) (cardW cardH : Int) (active : Bool) : List Line :=
  let inner := cardW - 2
  let content := caps.render item inner
  let role := if active then CardRole.active
    else if caps.isMarked item then CardRole.marked
    else CardRole.dflt
  caps.box role cardW cardH content

/-- `ghostCard` (carousel.go lines 427-433): blank placeholder card. -/
def ghostCard (caps : RenderCaps α) (cardW cardH : Int) : List Line :=
  caps.box .ghost cardW cardH ""

/-- The dot position indicator (carousel.go lines 231-239). -/
def dotIndicator (caps : RenderCaps α) (n : Nat) (cur : Int) : String :=
  String.intercalate " " ((List.range n).map fun i =>
    if (i : Int) = cur then caps.styled .activeDot "●" else caps.styled .defaultDot "○")

/-- The header section (carousel.go lines 242-251): styled title, marked/total
count, dot indicator. -/
def headerString (caps : RenderCaps α) (m : Model α) (n : Nat) : String :=
  caps.styled .header m.title ++ "  " ++
    caps.styled .help (toString (markedCount caps.isMarked m) ++ "/" ++ toString n ++ " saved") ++
    "\n" ++ dotIndicator caps n m.cursor ++ "\n\n"

/-- The footer navigation hint (carousel.go lines 276-284): a switch on the
cursor, first index checked before last index. -/
def navHint (n cur : Int) : String :=
  if cur = 0 then "→ Navigate"
  else if cur = n - 1 then "← Navigate"
  else "←→ Navigate"

/-- `Model.renderFooter` (carousel.go lines 385-399): dim-styled hints joined
by a dim separator, with the optional extra footer appended. -/
def renderFooter (caps : RenderCaps α) (m : Model α) (hint : String) : String :=
  let sep := caps.styled .dim " • "
  let parts := [caps.styled .dim hint, caps.styled .dim "Enter/↓ Select",
    caps.styled .dim "Esc Back"]
  let parts1 := if m.extraFooter ≠ "" then parts ++ [caps.styled .dim m.extraFooter] else parts
  caps.padFooter (String.intercalate sep parts1)

/-- Flattens a cell back to its textual form. -/
def cellToString : Cell → String
  | .ch c => String.singleton c
  | .esc s => s

/-- Flattens a line of cells to a string. -/
def lineToString (l : Line) : String := String.join (l.map cellToString)

/-- Flattens a block to a newline-joined string. -/
def blockToString (b : List Line) : String :=
  String.intercalate "\n" (b.map lineToString)

/-- `Model.View` (carousel.go lines 188-295). An empty item list
short-circuits to the empty string before any layout, delegate or card
logic. Otherwise the layout is computed, the center card and the two peeks
(ghosts at the boundaries) are rendered and clipped, and header, card row
and footer are stacked. Out-of-range item access (a Go panic, unreachable
under the cursor invariant) yields an empty block. -/
def view (caps : RenderCaps α) (m : Model α) : String :=
  let n := m.items.length
  if n = 0 then ""
  else
    let centerW := centerWidth m.width
    let peekW := peekWidth m.width
    let cardH := cardContentH m.width
    let cur := m.cursor
    let gapBlock : List Line := [List.replicate 2 (Cell.ch ' ')]
    let centerCard := match listGetInt m.items cur with
      | some it => renderCard caps it centerW cardH true
      | none => []
    let leftPeek :=
      if cur > 0 then
        match listGetInt m.items (cur - 1) with
        | some it => peekRight (renderCard caps it centerW cardH false) peekW.toNat
        | none => []
      else peekRight (ghostCard caps centerW cardH) peekW.toNat
    let rightPeek :=
      if cur < (n : Int) - 1 then
        match listGetInt m.items (cur + 1) with
        | some it => peekLeft (renderCard caps it centerW cardH false) peekW.toNat
        | none => []
      else peekLeft (ghostCard caps centerW cardH) peekW.toNat
    let row := caps.joinH [leftPeek, gapBlock, centerCard, gapBlock, rightPeek]
    headerString caps m n ++ blockToString row ++ "\n\n" ++
      renderFooter caps m (navHint (n : Int) cur)

/-- A trivial instantiation of the external rendering capabilities, used only
to instantiate universally quantified theorems at a concrete input. -/
def trivialCaps : RenderCaps Nat :=
  ⟨fun _ _ => "", fun _ => false, fun _ _ _ _ => [], fun _ s => s, fun _ => [], fun s => s⟩

/-! ## Helper lemmas -/

/-- The center width always lands in the clamp interval. -/
theorem centerWidth_bounds (w : Int) : 24 ≤ centerWidth w ∧ centerWidth w ≤ 44 := by
  simp only [centerWidth, usableW, minPeekW, carouselGap, maxCenterW]
  split_ifs <;> omega

/-- The half-card peek cap is at least 13 columns. -/
theorem maxPeek_centerWidth_ge (w : Int) : 13 ≤ (centerWidth w + 2).tdiv 2 := by
  have h := centerWidth_bounds w
  rw [Int.tdiv_eq_ediv (by omega) (by omega)]
  omega

/-- C1: for every model width, the layout computed at the start of `View`
satisfies all four postconditions at once: the center width lies in
`[24, 44]`, the peek width is at least 8 and at most `(centerWidth + 2) / 2`,
and the card height is at least 8; no input (including one making
`usable = width - 6` negative) escapes these bounds or fails. -/
theorem computeLayout_bounds (w : Int) :
    24 ≤ (computeLayout w).centerW ∧ (computeLayout w).centerW ≤ 44 ∧
      8 ≤ (computeLayout w).peekW ∧
      (computeLayout w).peekW ≤ ((computeLayout w).centerW + 2).tdiv 2 ∧
      8 ≤ (computeLayout w).cardH := by
  have hc := centerWidth_bounds w
  have hmp := maxPeek_centerWidth_ge w
  dsimp only [computeLayout]
  refine ⟨hc.1, hc.2, ?_, ?_, ?_⟩
  · simp only [peekWidth, maxPeek, minPeekW]
    split_ifs <;> omega
  · simp only [peekWidth, maxPeek, minPeekW]
    split_ifs <;> omega
  · simp only [cardContentH]
    split_ifs <;> omega

/-- Witness for C1 at width 33, which makes the raw peek formula negative. -/
theorem computeLayout_bounds_witness :
    24 ≤ (computeLayout 33).centerW ∧ (computeLayout 33).centerW ≤ 44 ∧
      8 ≤ (computeLayout 33).peekW ∧
      (computeLayout 33).peekW ≤ ((computeLayout 33).centerW + 2).tdiv 2 ∧
      8 ≤ (computeLayout 33).cardH :=
  computeLayout_bounds 33

/-- C9 counterexample: at model width 33 the code's pre-clamp peek width is 0,
while the claimed floor division would give -1, so the division is not
floor semantics. -/
theorem preClampPeek_not_floor :
    preClampPeek 33 = 0 ∧
      (usableW 33 - centerWidth 33 - 2 * carouselGap).fdiv 2 = -1 ∧
      preClampPeek 33 ≠ (usableW 33 - centerWidth 33 - 2 * carouselGap).fdiv 2 := by
  decide

/-- C9 (amended): the pre-clamp peek width is
`(usable - centerWidth - 2*gap)` under Go's truncating (toward-zero) integer
division, and the final peek width is that value clamped first to at most
`(centerWidth + 2) / 2` and then to at least `minPeekW = 8`. -/
theorem peekWidth_matches_amended_spec (w : Int) : peekWidth w = peekWidthSpec w := by
  simp only [peekWidth, peekWidthSpec, preClampPeek]
  split_ifs <;> omega

/-- Witness for the amended C9 at the concrete width 33. -/
theorem peekWidth_matches_amended_spec_witness :
    peekWidth 33 = peekWidthSpec 33 :=
  peekWidth_matches_amended_spec 33

/-- C10: on a model with an empty item list, `Update` is a no-op for every
key message (select keys included): the state is returned unchanged with a
nil command, and the `items[cursor]` access in the select branch is never
reached (no panic / error). -/
theorem update_empty_noop (m : Model α) (key : String) (h : m.items = []) :
    update m key = .ok (m, none) := by
  simp [update, h]

/-- Witness for C10 at a concrete empty model and a select key. -/
theorem update_empty_noop_witness :
    update (Model.mk [] "" "" 0 0 0 : Model Nat) "enter" =
      .ok (Model.mk [] "" "" 0 0 0, none) :=
  update_empty_noop _ _ rfl

/-- C6: a model with an empty item list renders to the empty string for every
delegate/styling capability, every title and extra footer, and every
configured cursor, width and height. -/
theorem view_empty_items (caps : RenderCaps α) (title extra : String) (cur w h : Int) :
    view caps (Model.mk [] title extra cur w h) = "" := rfl

/-- Witness for C6 at concrete capabilities and dimensions. -/
theorem view_empty_items_witness :
    view trivialCaps (Model.mk [] "t" "e" 0 80 24) = "" :=
  view_empty_items trivialCaps "t" "e" 0 80 24

/-- C8: with a non-empty item list and an in-range cursor, the footer hint is
`"→ Navigate"` at index 0, `"← Navigate"` at the last index (when not also
index 0), `"←→ Navigate"` strictly in between; for a single item the
first-index rule wins and the hint is `"→ Navigate"`. -/
theorem navHint_by_position (n cur : Int) (hn : 1 ≤ n) (h0 : 0 ≤ cur) (hlt : cur < n) :
    (cur = 0 → navHint n cur = "→ Navigate") ∧
      (cur ≠ 0 → cur = n - 1 → navHint n cur = "← Navigate") ∧
      (0 < cur → cur < n - 1 → navHint n cur = "←→ Navigate") ∧
      (n = 1 → navHint n cur = "→ Navigate") := by
  refine ⟨?_, ?_, ?_, ?_⟩
  · intro h
    simp [navHint, h]
  · intro h h1
    simp only [navHint]
    rw [if_neg h, if_pos h1]
  · intro h1 h2
    have hne0 : ¬(cur = 0) := by omega
    have hnel : ¬(cur = n - 1) := by omega
    simp [navHint, hne0, hnel]
  · intro h
    have : cur = 0 := by omega
    simp [navHint, this]

/-- Witness for C8: a single-item carousel shows the first-index hint. -/
theorem navHint_by_position_witness : navHint 1 0 = "→ Navigate" :=
  (navHint_by_position 1 0 (by decide) (by decide) (by decide)).2.2.2 rfl

/-- C5: `SetItems` installs the replacement sequence; when the new sequence is
non-empty and the cursor is at or past its length, the cursor is clamped to
the last valid index; a cursor below the new length is left unchanged. -/
theorem setItems_installs_and_clamps (m : Model α) (its : List α) :
    (setItems m its).items = its ∧
      (its ≠ [] → (its.length : Int) ≤ m.cursor →
        (setItems m its).cursor = (its.length : Int) - 1) ∧
      (m.cursor < (its.length : Int) → (setItems m its).cursor = m.cursor) := by
  refine ⟨?_, ?_, ?_⟩
  · simp only [setItems]
    split_ifs <;> rfl
  · intro hne hge
    have hpos : 0 < its.length := List.length_pos.mpr hne
    simp only [setItems]
    split_ifs with h
    · rfl
    · exact absurd ⟨by exact_mod_cast hpos, hge⟩ h
  · intro hlt
    simp only [setItems]
    split_ifs with h
    · exact absurd h.2 (by omega)
    · rfl

/-- Witness for C5: replacing three items by one while the cursor is at 2
clamps the cursor to 0 and installs the new list. -/
theorem setItems_installs_and_clamps_witness :
    (setItems (Model.mk [1, 2, 3] "" "" 2 0 0 : Model Nat) [5]).items = [5] ∧
      (setItems (Model.mk [1, 2, 3] "" "" 2 0 0 : Model Nat) [5]).cursor =
        (([5] : List Nat).length : Int) - 1 := by
  have h := setItems_installs_and_clamps (Model.mk [1, 2, 3] "" "" 2 0 0 : Model Nat) [5]
  exact ⟨h.1, h.2.1 (by decide) (by decide)⟩

/-- One move-key step of `update` preserves the item list and the cursor
invariant, emits no command and cannot fail. -/
theorem update_move_step (m : Model α) (k : String)
    (hk : k = "left" ∨ k = "h" ∨ k = "right" ∨ k = "l")
    (hinv : 0 ≤ m.cursor ∧ m.cursor < m.items.length) :
    ∃ m2, update m k = .ok (m2, none) ∧ m2.items = m.items ∧
      0 ≤ m2.cursor ∧ m2.cursor < m.items.length := by
  have hne : ¬(m.items.length = 0) := by omega
  rcases hk with h | h | h | h <;> subst h
  · by_cases hcur : m.cursor > 0
    · refine ⟨{ m with cursor := m.cursor - 1 }, by simp [update, hne, hcur], rfl, ?_, ?_⟩
      · show 0 ≤ m.cursor - 1
        omega
      · show m.cursor - 1 < (m.items.length : Int)
        omega
    · exact ⟨m, by simp [update, hne, hcur], rfl, hinv.1, hinv.2⟩
  · by_cases hcur : m.cursor > 0
    · refine ⟨{ m with cursor := m.cursor - 1 }, by simp [update, hne, hcur], rfl, ?_, ?_⟩
      · show 0 ≤ m.cursor - 1
        omega
      · show m.cursor - 1 < (m.items.length : Int)
        omega
    · exact ⟨m, by simp [update, hne, hcur], rfl, hinv.1, hinv.2⟩
  · by_cases hcur : m.cursor < (m.items.length : Int) - 1
    · refine ⟨{ m with cursor := m.cursor + 1 }, by simp [update, hne, hcur], rfl, ?_, ?_⟩
      · show 0 ≤ m.cursor + 1
        omega
      · show m.cursor + 1 < (m.items.length : Int)
        omega
    · exact ⟨m, by simp [update, hne, hcur], rfl, hinv.1, hinv.2⟩
  · by_cases hcur : m.cursor < (m.items.length : Int) - 1
    · refine ⟨{ m with cursor := m.cursor + 1 }, by simp [update, hne, hcur], rfl, ?_, ?_⟩
      · show 0 ≤ m.cursor + 1
        omega
      · show m.cursor + 1 < (m.items.length : Int)
        omega
    · exact ⟨m, by simp [update, hne, hcur], rfl, hinv.1, hinv.2⟩

/-- Folding any sequence of move keys through `update` preserves the item
list and the cursor invariant. -/
theorem applyMoves_invariant (m : Model α) (ks : List String)
    (hks : ∀ k ∈ ks, k = "left" ∨ k = "h" ∨ k = "right" ∨ k = "l")
    (hinv : 0 ≤ m.cursor ∧ m.cursor < m.items.length) :
    (applyMoves m ks).items = m.items ∧ 0 ≤ (applyMoves m ks).cursor ∧
      (applyMoves m ks).cursor < m.items.length := by
  induction ks generalizing m with
  | nil => exact ⟨rfl, hinv.1, hinv.2⟩
  | cons k ks ih =>
    obtain ⟨m2, hstep, hitems, h0, hlt⟩ := update_move_step m k (hks k (by simp)) hinv
    have hfold : applyMoves m (k :: ks) = applyMoves m2 ks := by
      simp [applyMoves, hstep]
    obtain ⟨hi, hc0, hclt⟩ :=
      ih m2 (fun k2 hk2 => hks k2 (by simp [hk2])) ⟨h0, by rw [hitems]; exact hlt⟩
    rw [hfold]
    exact ⟨hi.trans hitems, hc0, by rw [← hitems]; exact hclt⟩

/-- C2: starting from any state with a non-empty item list satisfying the
cursor invariant, the invariant `0 ≤ cursor < len(items)` still holds after
any sequence of move-left / move-right key messages processed by `Update`. -/
theorem cursor_invariant_moves (m : Model α) (ks : List String)
    (hne : m.items ≠ [])
    (hks : ∀ k ∈ ks, k = "left" ∨ k = "h" ∨ k = "right" ∨ k = "l")
    (hinv : 0 ≤ m.cursor ∧ m.cursor < m.items.length) :
    0 ≤ (applyMoves m ks).cursor ∧
      (applyMoves m ks).cursor < (applyMoves m ks).items.length := by
  obtain ⟨hitems, h0, hlt⟩ := applyMoves_invariant m ks hks hinv
  exact ⟨h0, by rw [hitems]; exact hlt⟩

/-- Witness for C2 at a concrete three-item model and a concrete move
sequence. -/
theorem cursor_invariant_moves_witness :
    0 ≤ (applyMoves (Model.mk [1, 2, 3] "" "" 0 0 0 : Model Nat)
        ["right", "right", "left"]).cursor ∧
      (applyMoves (Model.mk [1, 2, 3] "" "" 0 0 0 : Model Nat)
          ["right", "right", "left"]).cursor <
        (applyMoves (Model.mk [1, 2, 3] "" "" 0 0 0 : Model Nat)
          ["right", "right", "left"]).items.length :=
  cursor_invariant_moves (Model.mk [1, 2, 3] "" "" 0 0 0 : Model Nat)
    ["right", "right", "left"] (by decide) (by decide) (by decide)

/-- C3: on a non-empty item list with an in-range cursor, each select key
makes `Update` return the state unchanged together with a command whose
message carries exactly the cursor and the item at the cursor. -/
theorem select_emits_cursor_item (m : Model α) (key : String)
    (hkey : key = "down" ∨ key = "j" ∨ key = "enter" ∨ key = " ")
    (h0 : 0 ≤ m.cursor) (hlt : m.cursor < m.items.length) :
    ∃ item, m.items[m.cursor.toNat]? = some item ∧
      update m key = .ok (m, some ⟨m.cursor, item⟩) := by
  have hne : ¬(m.items.length = 0) := by omega
  have hb : m.cursor.toNat < m.items.length := by omega
  have hget : listGetInt m.items m.cursor = some m.items[m.cursor.toNat] := by
    simp [listGetInt, h0, List.getElem?_eq_getElem hb]
  refine ⟨m.items[m.cursor.toNat], List.getElem?_eq_getElem hb, ?_⟩
  rcases hkey with h | h | h | h <;> subst h <;> simp [update, hne, hget]

/-- Witness for C3: three items, cursor 0, key `enter` emits `(0, items[0])`
and leaves the state unchanged. -/
theorem select_emits_cursor_item_witness :
    ∃ item, ([10, 20, 30] : List Nat)[(0 : Int).toNat]? = some item ∧
      update (Model.mk [10, 20, 30] "" "" 0 0 0 : Model Nat) "enter" =
        .ok (Model.mk [10, 20, 30] "" "" 0 0 0, some ⟨0, item⟩) :=
  select_emits_cursor_item (Model.mk [10, 20, 30] "" "" 0 0 0 : Model Nat) "enter"
    (Or.inr (Or.inr (Or.inl rfl))) (by decide) (by decide)

/-- C4: with a non-empty item list, a move-left key at cursor 0 and a
move-right key at the last index each return the state unchanged with a nil
command, and any key outside the seven recognized ones (plus space) is also
a no-op. -/
theorem boundary_and_unrecognized_noop (m : Model α) (keyL keyR keyO : String)
    (hne : m.items ≠ [])
    (hL : keyL = "left" ∨ keyL = "h")
    (hR : keyR = "right" ∨ keyR = "l")
    (hO : keyO ∉ (["left", "h", "right", "l", "down", "j", "enter", " "] : List String)) :
    (m.cursor = 0 → update m keyL = .ok (m, none)) ∧
      (m.cursor = (m.items.length : Int) - 1 → update m keyR = .ok (m, none)) ∧
      update m keyO = .ok (m, none) := by
  have hne' : ¬(m.items.length = 0) := by simpa [List.length_eq_zero] using hne
  refine ⟨?_, ?_, ?_⟩
  · intro hc
    rcases hL with h | h <;> subst h <;> simp [update, hne', hc]
  · intro hc
    rcases hR with h | h <;> subst h <;> simp [update, hne', hc]
  · simp only [List.mem_cons, List.not_mem_nil, or_false, not_or] at hO
    obtain ⟨h1, h2, h3, h4, h5, h6, h7, h8⟩ := hO
    simp [update, hne', h1, h2, h3, h4, h5, h6, h7, h8]

/-- Witness for C4 at a single-item model, where index 0 is simultaneously
first and last, and at an unrecognized key. -/
theorem boundary_and_unrecognized_noop_witness :
    ((Model.mk [7] "" "" 0 0 0 : Model Nat).cursor = 0 →
        update (Model.mk [7] "" "" 0 0 0 : Model Nat) "left" =
          .ok (Model.mk [7] "" "" 0 0 0, none)) ∧
      ((Model.mk [7] "" "" 0 0 0 : Model Nat).cursor =
          ((Model.mk [7] "" "" 0 0 0 : Model Nat).items.length : Int) - 1 →
        update (Model.mk [7] "" "" 0 0 0 : Model Nat) "right" =
          .ok (Model.mk [7] "" "" 0 0 0, none)) ∧
      update (Model.mk [7] "" "" 0 0 0 : Model Nat) "x" =
        .ok (Model.mk [7] "" "" 0 0 0, none) :=
  boundary_and_unrecognized_noop _ _ _ _ (by decide) (Or.inl rfl) (Or.inl rfl) (by decide)

/-- Removing `k` visible columns from the left leaves `width - k` visible
columns (truncated subtraction). -/
theorem truncateLeft_width (l : Line) (k : Nat) :
    stringWidth (truncateLeft l k) = stringWidth l - k := by
  induction l generalizing k with
  | nil => cases k <;> simp [truncateLeft, stringWidth]
  | cons c rest ih =>
    cases k with
    | zero => simp [truncateLeft]
    | succ k =>
      cases c with
      | esc s =>
        have := ih (k + 1)
        simp only [truncateLeft, stringWidth, List.map_cons, List.sum_cons, cellWidth] at this ⊢
        omega
      | ch c =>
        have := ih k
        simp only [truncateLeft, stringWidth, List.map_cons, List.sum_cons, cellWidth] at this ⊢
        omega

/-- C7: for every block and every clip width `n`, `peekRight` maps each line
to a line of visible width exactly `min n (original width)`, and returns any
line whose visible width is already at most `n` unchanged, cell for cell. -/
theorem peekRight_visible_width (block : List Line) (n : Nat) :
    List.Forall₂
      (fun out inp => stringWidth out = min n (stringWidth inp) ∧
        (stringWidth inp ≤ n → out = inp))
      (peekRight block n) block := by
  induction block with
  | nil => simp [peekRight]
  | cons line rest ih =>
    simp only [peekRight, List.map_cons] at ih ⊢
    refine List.Forall₂.cons ?_ ih
    by_cases h : n < stringWidth line
    · rw [if_pos h]
      refine ⟨?_, ?_⟩
      · rw [truncateLeft_width]
        omega
      · intro hle
        omega
    · rw [if_neg h]
      exact ⟨by omega, fun _ => rfl⟩

/-- Witness for C7 on a concrete two-line styled block clipped to two
columns: the first line (three printable cells and one escape) shrinks to
width two, the second (one printable cell) is returned unchanged. -/
theorem peekRight_visible_width_witness :
    List.Forall₂
      (fun out inp => stringWidth out = min 2 (stringWidth inp) ∧
        (stringWidth inp ≤ 2 → out = inp))
      (peekRight [[Cell.ch 'a', Cell.esc "E", Cell.ch 'b', Cell.ch 'c'], [Cell.ch 'd']] 2)
      [[Cell.ch 'a', Cell.esc "E", Cell.ch 'b', Cell.ch 'c'], [Cell.ch 'd']] :=
  peekRight_visible_width [[Cell.ch 'a', Cell.esc "E", Cell.ch 'b', Cell.ch 'c'], [Cell.ch 'd']] 2

end Carousel
